import Mathlib

/-!
Verification of the Heap2Local and Outlining passes of binaryen
(src/passes/Heap2Local.cpp and src/passes/Outlining.cpp), as a shallow
embedding in Lean 4.

The escape analysis of Heap2Local works on an arena of expressions: each
expression is identified by a numeric id, and the collaborators that the
source consumes (ParentMap, LazyLocalGraph, BranchTargets, the type
subtyping oracle and the fallthrough computation of Properties) are fields
of an environment record.  The worklist of EscapeAnalyzer.escapes is
modelled with explicit fuel; the unique non-repeating queue keeps a list of
everything ever pushed, as the source queue does.

The rewriters (Struct2Local, Array2Struct) build concrete output IR, so a
small deep expression type OExpr mirrors the constructors of wasm-builder
that the source calls.
-/

/-- Expression ids in the function body arena. -/
abbrev ExprId := Nat

/-- A wasm value type, as far as the analysis consumes it: the analysis only
ever asks whether a type is a reference, whether it is nullable, and whether
it equals the unreachable type. -/
inductive WTy where
  | noneT : WTy
  | unreachable : WTy
  | i32 : WTy
  | ref (heap : Nat) (nullable : Bool) : WTy
deriving DecidableEq

/-- Type.isRef of the source IR. -/
def WTy.isRef : WTy → Bool
  | WTy.ref _ _ => true
  | _ => false

/-- Type.isNullable of the source IR. -/
def WTy.isNullable : WTy → Bool
  | WTy.ref _ n => n
  | _ => false

/-- ParentChildInteraction of Heap2Local.cpp: how a parent expression
interacts with a child that holds the candidate allocation. -/
inductive PCI where
  | Escapes : PCI
  | FullyConsumes : PCI
  | Flows : PCI
  | Mixes : PCI
  | NoneI : PCI
deriving DecidableEq

/-- The shallow shape of a parent expression, carrying exactly the operand
ids and flags that EscapeAnalyzer.getParentChildInteraction inspects.
Kinds with no dedicated visit method in the source Checker (if, call,
everything else) are covered by iff and other. -/
inductive NodeKind where
  | block : NodeKind
  | loop : NodeKind
  | iff : NodeKind
  | drop : NodeKind
  | brk : NodeKind
  | switch : NodeKind
  | localGet : NodeKind
  | localSet : NodeKind
  | refIsNull : NodeKind
  | refEq : NodeKind
  | refAs (isNonNull : Bool) : NodeKind
  | refTest : NodeKind
  | refCast (ref : ExprId) : NodeKind
  | refGetDesc : NodeKind
  | structSet (ref : ExprId) : NodeKind
  | structGet : NodeKind
  | structRMW (ref : ExprId) : NodeKind
  | structCmpxchg (ref expected : ExprId) : NodeKind
  | arraySet (indexConst : Bool) (ref : ExprId) : NodeKind
  | arrayGet (indexConst : Bool) : NodeKind
  | arrayRMW (ref : ExprId) : NodeKind
  | arrayCmpxchg (ref expected : ExprId) : NodeKind
  | other : NodeKind
deriving DecidableEq

/-- The collaborators consumed by EscapeAnalyzer: the expression arena
(kind and type of every expression), the ParentMap, the LazyLocalGraph
(setInfluences and getSets), BranchTargets, BranchUtils queries, the
subtyping oracle of the type system, and Properties.getImmediateFallthrough.
The source treats all of these as external interfaces. -/
structure AEnv where
  kind : ExprId → NodeKind
  typeOf : ExprId → WTy
  parent : ExprId → Option ExprId
  setInfluences : ExprId → List ExprId
  getSets : ExprId → List ExprId
  subTypeB : WTy → WTy → Bool
  fallthrough : ExprId → Option ExprId
  definedName : ExprId → Option Nat
  branchesTo : Nat → List ExprId
  sentValueOf : ExprId → Option ExprId
  blockBackType : ExprId → Option WTy
  branchTarget : Nat → ExprId
  scopeSends : ExprId → List (Nat × Option ExprId)

/-- The Checker visitor inside getParentChildInteraction: for a parent of
the given kind, compute the pair (escapes, fullyConsumes).  Fields start as
(true, false) and each visit method overrides them exactly as the source
does; kinds with no visit method (if, call, anything else) keep the
defaults. -/
def checkerFlags (env : AEnv) (allocation : ExprId) (parent : ExprId)
    (child : ExprId) : Bool × Bool :=
  match env.kind parent with
  | NodeKind.block => (false, false)
  | NodeKind.loop => (false, false)
  | NodeKind.iff => (true, false)
  | NodeKind.drop => (false, true)
  | NodeKind.brk => (false, false)
  | NodeKind.switch => (false, false)
  | NodeKind.localGet => (false, false)
  | NodeKind.localSet => (false, false)
  | NodeKind.refIsNull => (false, true)
  | NodeKind.refEq => (false, true)
  | NodeKind.refAs isNonNull => if isNonNull then (false, false) else (true, false)
  | NodeKind.refTest => (false, true)
  | NodeKind.refCast r =>
      if r = child then
        (false, !(env.subTypeB (env.typeOf allocation) (env.typeOf parent)))
      else
        (false, true)
  | NodeKind.refGetDesc => (false, true)
  | NodeKind.structSet r => if r = child then (false, true) else (true, false)
  | NodeKind.structGet => (false, true)
  | NodeKind.structRMW r => if r = child then (false, true) else (true, false)
  | NodeKind.structCmpxchg r e =>
      if r = child ∨ e = child then (false, true) else (true, false)
  | NodeKind.arraySet indexConst r =>
      if !indexConst then (true, false)
      else if r = child then (false, true) else (true, false)
  | NodeKind.arrayGet indexConst =>
      if !indexConst then (true, false) else (false, true)
  | NodeKind.arrayRMW r => if r = child then (false, true) else (true, false)
  | NodeKind.arrayCmpxchg r e =>
      if r = child ∨ e = child then (false, true) else (true, false)
  | NodeKind.other => (true, false)

/-- EscapeAnalyzer.getParentChildInteraction: a missing parent escapes
(the value is the function result); otherwise run the Checker, then fall
back on the type of the parent, the immediate fallthrough, and the
single-branch-to-an-unreachable-ended-block case, ending with Mixes. -/
def getParentChildInteraction (env : AEnv) (allocation : ExprId)
    (parentOpt : Option ExprId) (child : ExprId) : PCI :=
  match parentOpt with
  | Option.none => PCI.Escapes
  | Option.some parent =>
    let flags := checkerFlags env allocation parent child
    if flags.1 then PCI.Escapes
    else if flags.2 ∨ !((env.typeOf parent).isRef) then PCI.FullyConsumes
    else if env.fallthrough parent = Option.some child then PCI.Flows
    else
      let branches := match env.definedName parent with
        | Option.some n => env.branchesTo n
        | Option.none => []
      match branches with
      | [b] =>
        if env.sentValueOf b = Option.some child ∧ env.kind parent = NodeKind.block ∧
            env.blockBackType parent = Option.some WTy.unreachable then
          PCI.Flows
        else
          PCI.Mixes
      | _ => PCI.Mixes

/-- EscapeAnalyzer.branchesSentByParent: the branch names the parent sends
whose sent value is exactly the child. -/
def branchesSentByParent (env : AEnv) (child : ExprId) (parent : ExprId) :
    List Nat :=
  ((env.scopeSends parent).filter (fun p => p.2 = Option.some child)).map
    (fun p => p.1)

/-- The worklist: a UniqueNonrepeatingDeferredQueue of (child, parent)
pairs.  seen records everything ever pushed; a pair already seen is never
pushed again. -/
structure FlowQueue where
  items : List (ExprId × Option ExprId)
  seen : List (ExprId × Option ExprId)
deriving DecidableEq

def pushQ (q : FlowQueue) (x : ExprId × Option ExprId) : FlowQueue :=
  if x ∈ q.seen then q else ⟨q.items ++ [x], x :: q.seen⟩

def popQ (q : FlowQueue) : Option ((ExprId × Option ExprId) × FlowQueue) :=
  match q.items with
  | [] => Option.none
  | x :: xs => Option.some (x, ⟨xs, q.seen⟩)

/-- Mutable state of EscapeAnalyzer: the recorded local.sets and the
reachedInteractions map (an association list; a later insert shadows an
earlier one, as assignment into the unordered_map does). -/
structure AnalyzerState where
  sets : List ExprId
  reached : List (ExprId × PCI)
deriving DecidableEq

def insertR (l : List (ExprId × PCI)) (e : ExprId) (i : PCI) :
    List (ExprId × PCI) :=
  (e, i) :: l

def lookupR (l : List (ExprId × PCI)) (e : ExprId) : Option PCI :=
  match l with
  | [] => Option.none
  | (k, v) :: t => if k = e then Option.some v else lookupR t e

def setsInsert (l : List ExprId) (s : ExprId) : List ExprId :=
  if s ∈ l then l else s :: l

/-- EscapeAnalyzer.getsAreExclusiveToSets: collect the gets influenced by
any recorded set, and check that every set any of those gets may read from
is a recorded set. -/
def getsAreExclusiveToSets (env : AEnv) (sets : List ExprId) : Bool :=
  let gets := (sets.map env.setInfluences).flatten
  gets.all (fun g => (env.getSets g).all (fun s => decide (s ∈ sets)))

/-- One non-terminal iteration of the worklist loop of
EscapeAnalyzer.escapes, for interaction i of (child, parent): push the
grandparent on Flows, record a local.set parent and push its influenced
gets, push branch targets the parent sends the child to, then record the
child as Flows and the parent with its interaction. -/
def stepAfterChecks (env : AEnv) (child parent : ExprId) (i : PCI)
    (q : FlowQueue) (st : AnalyzerState) : FlowQueue × AnalyzerState :=
  let q1 := if i = PCI.Flows then pushQ q (parent, env.parent parent) else q
  let q2 := if env.kind parent = NodeKind.localSet then
      (env.setInfluences parent).foldl
        (fun qq g => pushQ qq (g, env.parent g)) q1
    else q1
  let st1 := if env.kind parent = NodeKind.localSet then
      { st with sets := setsInsert st.sets parent }
    else st
  let q3 := (branchesSentByParent env child parent).foldl
    (fun qq n => pushQ qq (child, Option.some (env.branchTarget n))) q2
  let st2 := { st1 with
    reached := insertR (insertR st1.reached child PCI.Flows) parent i }
  (q3, st2)

/-- Process one popped (child, parent) pair: classify the interaction;
Escapes and Mixes end the analysis with result true (the source returns
true from escapes); otherwise continue with the updated queue and state.
The inner none branch is dead: a missing parent classifies as Escapes. -/
def escapesStep (env : AEnv) (allocation : ExprId)
    (pr : ExprId × Option ExprId) (q : FlowQueue) (st : AnalyzerState) :
    Sum (Bool × AnalyzerState) (FlowQueue × AnalyzerState) :=
  let i := getParentChildInteraction env allocation pr.2 pr.1
  if i = PCI.Escapes ∨ i = PCI.Mixes then Sum.inl (true, st)
  else
    match pr.2 with
    | Option.none => Sum.inl (true, st)
    | Option.some parent => Sum.inr (stepAfterChecks env pr.1 parent i q st)

/-- The worklist loop of EscapeAnalyzer.escapes, with explicit fuel.  When
the queue drains, the final get-exclusivity check decides the result. -/
def escapesLoop (env : AEnv) (allocation : ExprId) :
    Nat → FlowQueue → AnalyzerState → Option (Bool × AnalyzerState)
  | 0, _, _ => Option.none
  | Nat.succ fuel, q, st =>
    match popQ q with
    | Option.none => Option.some (!(getsAreExclusiveToSets env st.sets), st)
    | Option.some (pr, q') =>
      match escapesStep env allocation pr q' st with
      | Sum.inl r => Option.some r
      | Sum.inr (q1, st1) => escapesLoop env allocation fuel q1 st1

/-- EscapeAnalyzer.escapes: seed the queue with the allocation and its
parent and run the worklist, returning the escape verdict together with the
final analyzer state. -/
def escapesA (env : AEnv) (allocation : ExprId) (fuel : Nat) :
    Option (Bool × AnalyzerState) :=
  escapesLoop env allocation fuel
    (pushQ ⟨[], []⟩ (allocation, env.parent allocation)) ⟨[], []⟩

/-!
Output IR built by the rewriters.  Each constructor corresponds to a
wasm-builder construction the source calls (makeLocalSet, makeLocalGet,
makeRefAs with RefAsNonNull, makeRefNull, makeConstantExpression of a zero
literal, makeConst of an i32, makeBlock, makeDrop, makeSequence,
makeStructGet, makeStructSet, makeUnreachable).  atomE stands for a
subexpression of the original program that the rewrite moves unchanged.
-/
inductive OExpr where
  | localSet (idx : Nat) (value : OExpr) : OExpr
  | localGet (idx : Nat) (ty : WTy) : OExpr
  | refAsNonNull (value : OExpr) : OExpr
  | refNull (heap : Nat) : OExpr
  | zeroConst (ty : WTy) : OExpr
  | consti32 (n : Int) : OExpr
  | blockE (list : List OExpr) : OExpr
  | dropE (e : OExpr) : OExpr
  | seqE (a b : OExpr) : OExpr
  | structGetE (idx : Nat) (ref : OExpr) (ty : WTy) (signed : Bool) : OExpr
  | structSetE (idx : Nat) (ref : OExpr) (value : OExpr) : OExpr
  | unreachableE : OExpr
  | atomE (tag : Nat) : OExpr

/-- The fields of a StructNew allocation that Struct2Local.visitStructNew
reads: the struct field types, whether the allocation is with-default, the
operand expressions, the optional descriptor operand together with its
type, and the heap type of the allocation. -/
structure StructNewData where
  fieldsT : List WTy
  isWithDefault : Bool
  operands : List OExpr
  desc : Option (OExpr × WTy)
  heapT : Nat

/-- The contents list of the replacement block Struct2Local.visitStructNew
builds: (1) for a non-default allocation, sets of every operand into fresh
temp locals; (2) if a descriptor is present, a set of the descriptor into
one more temp local, wrapped in ref.as_non_null when the descriptor type is
nullable; (3) copies of the temps (or zero literals for a default
allocation) into the field locals; (4) the copy of the descriptor temp into
the descriptor local; (5) a final ref.null of the allocation heap type.
Fresh locals from Builder.addVar are modelled by consecutive indices
starting at firstTemp. -/
def structNewContents (curr : StructNewData) (localIndexes : List Nat)
    (firstTemp : Nat) : List OExpr :=
  let numTemps := (if curr.isWithDefault then 0 else curr.fieldsT.length) +
    (if curr.desc.isSome then 1 else 0)
  let part1 := if curr.isWithDefault then [] else
    (List.range curr.fieldsT.length).map (fun i =>
      OExpr.localSet (firstTemp + i) (curr.operands.getD i (OExpr.atomE 0)))
  let part2 := match curr.desc with
    | Option.some (d, ty) =>
      [OExpr.localSet (firstTemp + (numTemps - 1))
        (if ty.isNullable then OExpr.refAsNonNull d else d)]
    | Option.none => []
  let part3 := (List.range curr.fieldsT.length).map (fun i =>
    OExpr.localSet (localIndexes.getD i 0)
      (if curr.isWithDefault then OExpr.zeroConst (curr.fieldsT.getD i WTy.noneT)
       else OExpr.localGet (firstTemp + i) (curr.fieldsT.getD i WTy.noneT)))
  let part4 := match curr.desc with
    | Option.some (_, ty) =>
      [OExpr.localSet (localIndexes.getD curr.fieldsT.length 0)
        (OExpr.localGet (firstTemp + (numTemps - 1)) ty)]
    | Option.none => []
  part1 ++ part2 ++ part3 ++ part4 ++ [OExpr.refNull curr.heapT]

/-- Struct2Local.visitStructNew replaces the allocation with a block of the
contents above. -/
def visitStructNewS2L (curr : StructNewData) (localIndexes : List Nat)
    (firstTemp : Nat) : OExpr :=
  OExpr.blockE (structNewContents curr localIndexes firstTemp)

/-- The fields of a RefEq expression that Struct2Local.visitRefEq reads. -/
structure RefEqData where
  left : OExpr
  right : OExpr
  ty : WTy

/-- Struct2Local.visitRefEq, parametrized by the interactions the analyzer
recorded for the ref.eq itself and for its two operands.  A ref.eq the
analysis did not reach is left unchanged (result none), as is one whose
type is unreachable; otherwise the ref.eq becomes a block that drops both
operands and yields 1 when both operands have the Flows interaction and 0
otherwise. -/
def visitRefEqS2L (interCurr interLeft interRight : PCI) (curr : RefEqData) :
    Option OExpr :=
  if interCurr = PCI.NoneI then Option.none
  else if curr.ty = WTy.unreachable then Option.none
  else
    let result : Int :=
      if interLeft = PCI.Flows ∧ interRight = PCI.Flows then 1 else 0
    Option.some (OExpr.blockE
      [OExpr.dropE curr.left, OExpr.dropE curr.right, OExpr.consti32 result])

/-- Literal.getUnsigned of an i32 constant. -/
def i32Unsigned (n : Int) : Nat := (n % (2 ^ 32)).toNat

/-- Array2Struct.getIndex reads the constant value of an index operand; a
non-constant index cannot occur on a reached array access (the escape
analysis classifies it as escaping), so it yields none here. -/
def getIndexO : OExpr → Option Nat
  | OExpr.consti32 n => Option.some (i32Unsigned n)
  | _ => Option.none

/-- The fields of an ArrayGet that Array2Struct.visitArrayGet reads. -/
structure ArrayGetData where
  ref : OExpr
  index : OExpr
  ty : WTy
  signed : Bool

/-- The fields of an ArraySet that Array2Struct.visitArraySet reads. -/
structure ArraySetData where
  ref : OExpr
  index : OExpr
  value : OExpr

/-- Array2Struct.visitArrayGet, for an array rewritten to numFields slots:
unreached accesses are left unchanged (replacement none, flag untouched);
an out-of-bounds constant index becomes a drop of the reference followed by
unreachable and sets the refinalize flag; otherwise the access becomes the
equivalent struct.get.  The outer Option is none only on a non-constant
index, which cannot be reached. -/
def visitArrayGetA2S (numFields : Nat) (inter : PCI) (curr : ArrayGetData) :
    Option (Option OExpr × Bool) :=
  if inter = PCI.NoneI then Option.some (Option.none, false)
  else
    match getIndexO curr.index with
    | Option.none => Option.none
    | Option.some index =>
      if numFields ≤ index then
        Option.some (Option.some
          (OExpr.seqE (OExpr.dropE curr.ref) OExpr.unreachableE), true)
      else
        Option.some (Option.some
          (OExpr.structGetE index curr.ref curr.ty curr.signed), false)

/-- Array2Struct.visitArraySet, in the same shape as visitArrayGet: an
out-of-bounds constant index becomes drops of the reference and the value
followed by unreachable, with the refinalize flag set. -/
def visitArraySetA2S (numFields : Nat) (inter : PCI) (curr : ArraySetData) :
    Option (Option OExpr × Bool) :=
  if inter = PCI.NoneI then Option.some (Option.none, false)
  else
    match getIndexO curr.index with
    | Option.none => Option.none
    | Option.some index =>
      if numFields ≤ index then
        Option.some (Option.some (OExpr.blockE
          [OExpr.dropE curr.ref, OExpr.dropE curr.value,
           OExpr.unreachableE]), true)
      else
        Option.some (Option.some
          (OExpr.structSetE index curr.ref curr.value), false)

/-- AllocationFinder.isValidSize on a numeric size: strictly below 20. -/
def isValidSizeN (size : Nat) : Bool := size < 20

/-- AllocationFinder.isValidSize on a size expression: the size must be a
constant whose unsigned value is valid. -/
def isValidSizeE : OExpr → Bool
  | OExpr.consti32 n => isValidSizeN (i32Unsigned n)
  | _ => false

/-- The fields of an ArrayNew that AllocationFinder.visitArrayNew reads. -/
structure ArrayNewData where
  ty : WTy
  size : OExpr

/-- The fields of an ArrayNewFixed that the finder reads: its type and the
number of its value operands. -/
structure ArrayNewFixedData where
  ty : WTy
  numValues : Nat
deriving DecidableEq

/-- AllocationFinder.visitArrayNew: the allocation is recorded as a
candidate iff its type is not unreachable and its size is valid. -/
def finderAcceptsArrayNew (curr : ArrayNewData) : Bool :=
  if curr.ty = WTy.unreachable then false else isValidSizeE curr.size

/-- AllocationFinder.visitArrayNewFixed: recorded iff the type is not
unreachable and the operand count is a valid size. -/
def finderAcceptsArrayNewFixed (curr : ArrayNewFixedData) : Bool :=
  if curr.ty = WTy.unreachable then false else isValidSizeN curr.numValues

/-!
Outlining.  The candidate pipeline of Outlining.run lives in
src/passes/Outlining.cpp; the individual stages (the suffix-tree miner of
support/suffix_tree.h and the StringifyProcessor filters of
passes/stringify-walker.h) are outside the provided sources, so they are
modelled from the spec below, each marked as such.
-/

/-- SuffixTree.RepeatedSubstring: a repeated substring of the hash string,
as its length and the start indices of its occurrences. -/
structure RepSub where
  Length : Nat
  StartIndices : List Nat
deriving DecidableEq

/-- The shallow identity of a position of the stringified program, as far
as the content filters inspect it: a control-flow separator, a
branch/return/try_table, a local.set, a local.get, or anything else. -/
inductive StrSym where
  | sep : StrSym
  | branchS : StrSym
  | returnS : StrSym
  | tryTableS : StrSym
  | localSetS : StrSym
  | localGetS : StrSym
  | otherS : StrSym
deriving DecidableEq

/-- The contiguous slice of length len starting at position start. -/
def extractSub (hs : List Nat) (start len : Nat) : List Nat :=
  (hs.drop start).take len

/-- Modelled from the spec: the suffix-tree miner
(StringifyProcessor.repeatSubstrings backed by support/suffix_tree.h, not
in the provided sources) produces the repeated substrings of the hash
string of length at least 2 occurring at at least 2 start positions; each
content is reported once, with all of its start positions in ascending
order. -/
def repeatSubstrings (hs : List Nat) : List RepSub :=
  (List.range (hs.length + 1)).flatMap (fun len =>
    if len < 2 then [] else
      (List.range hs.length).filterMap (fun i =>
        if hs.length < i + len then Option.none else
          let sub := extractSub hs i len
          let starts := (List.range hs.length).filter (fun j =>
            decide (j + len ≤ hs.length) && decide (extractSub hs j len = sub))
          if 2 ≤ starts.length ∧ starts.head? = Option.some i then
            Option.some ⟨len, starts⟩
          else Option.none))

/-- Whether every occurrence of s lies inside some occurrence of the
strictly longer t. -/
def isSubrangeOf (s t : RepSub) : Bool :=
  decide (s.Length < t.Length) &&
    s.StartIndices.all (fun i => t.StartIndices.any (fun j =>
      decide (j ≤ i) && decide (i + s.Length ≤ j + t.Length)))

/-- Modelled from the spec: StringifyProcessor.dedupe (not in the provided
sources) removes any substring that is a subrange of a strictly longer
repeat substring at the same offsets. -/
def dedupe (l : List RepSub) : List RepSub :=
  l.filter (fun s => !(l.any (fun t => isSubrangeOf s t)))

/-- Greedy selection, by ascending start index, of a non-overlapping subset
of start indices of occurrences of length len. -/
def greedyKeep (len : Nat) (starts : List Nat) : List Nat :=
  (starts.foldl (fun (acc : List Nat × Nat) i =>
    if acc.2 ≤ i then (acc.1 ++ [i], i + len) else acc) ([], 0)).1

/-- Modelled from the spec: StringifyProcessor.filterOverlaps (not in the
provided sources) keeps, for each substring, a non-overlapping subset of
its start indices, greedily by ascending start. -/
def filterOverlaps (l : List RepSub) : List RepSub :=
  l.map (fun s => { s with StartIndices := greedyKeep s.Length s.StartIndices })

def isBranchSym : StrSym → Bool
  | StrSym.branchS => true
  | StrSym.returnS => true
  | StrSym.tryTableS => true
  | _ => false

def isLocalSetSym : StrSym → Bool
  | StrSym.localSetS => true
  | _ => false

def isLocalGetSym : StrSym → Bool
  | StrSym.localGetS => true
  | _ => false

/-- Whether some occurrence of the substring covers a position whose
expression satisfies p. -/
def subContains (exprs : List StrSym) (s : RepSub) (p : StrSym → Bool) :
    Bool :=
  s.StartIndices.any (fun i => ((exprs.drop i).take s.Length).any p)

/-- Modelled from the spec: StringifyProcessor.filterBranches (not in the
provided sources) drops substrings containing any branch, return or
try_table instruction. -/
def filterBranches (l : List RepSub) (exprs : List StrSym) : List RepSub :=
  l.filter (fun s => !(subContains exprs s isBranchSym))

/-- Modelled from the spec: StringifyProcessor.filterLocalSets (not in the
provided sources) drops substrings containing any local.set. -/
def filterLocalSets (l : List RepSub) (exprs : List StrSym) : List RepSub :=
  l.filter (fun s => !(subContains exprs s isLocalSetSym))

/-- Modelled from the spec: StringifyProcessor.filterLocalGets (not in the
provided sources) drops substrings containing any local.get. -/
def filterLocalGets (l : List RepSub) (exprs : List StrSym) : List RepSub :=
  l.filter (fun s => !(subContains exprs s isLocalGetSym))

/-- The candidate pipeline of Outlining.run, with the successive
reassignments of the substrings variable exactly as in the source: mine the
repeat substrings, dedupe, filter overlapping indices, then filter out
substrings containing branches, local.sets, and local.gets, in that
order. -/
def outliningCandidates (hashString : List Nat) (exprs : List StrSym) :
    List RepSub :=
  let substrings := repeatSubstrings hashString
  let substrings := dedupe substrings
  let substrings := filterOverlaps substrings
  let substrings := filterBranches substrings exprs
  let substrings := filterLocalSets substrings exprs
  let substrings := filterLocalGets substrings exprs
  substrings

/-- OutliningSequence: function-relative start and end indices of a
sequence to outline, the name (id) of its callee, and whether the sequence
ends with an expression of unreachable type. -/
structure OutSeq where
  startIdx : Nat
  endIdx : Nat
  funcId : Nat
  endsTypeUnreachable : Bool
deriving DecidableEq

/-- ReconstructState of ReconstructStringifyWalker. -/
inductive RState where
  | NotInSeq : RState
  | InSeq : RState
  | InSkipSeq : RState
deriving DecidableEq

/-- The walker state that maybeEndSeq and transitionToNotInSeq touch: the
reconstruction state, the sequence counter, the instruction counter, and
the number of visitEnd calls issued on the outlined builder (finalizing a
callee body). -/
structure RecWalk where
  state : RState
  seqCounter : Nat
  instrCounter : Nat
  outlinedEnds : Nat
deriving DecidableEq

/-- ReconstructStringifyWalker.transitionToNotInSeq: if the walker is
InSeq, end the outlined builder scope (finalizing the callee body), then
increment the sequence counter.  The source leaves state itself to the
caller. -/
def transitionToNotInSeq (w : RecWalk) : RecWalk :=
  let w1 := if w.state = RState.InSeq then
      { w with outlinedEnds := w.outlinedEnds + 1 }
    else w
  { w1 with seqCounter := w1.seqCounter + 1 }

/-- ReconstructStringifyWalker.maybeEndSeq: when the instruction counter
reaches one before the end index of the active sequence, run
transitionToNotInSeq and reset the state to NotInSeq.  The source indexes
sequences[seqCounter] unconditionally; it is only called while a sequence
is active, so the out-of-range branch returns the state unchanged. -/
def maybeEndSeq (seqs : List OutSeq) (w : RecWalk) : RecWalk :=
  match seqs.get? w.seqCounter with
  | Option.none => w
  | Option.some sq =>
    if w.instrCounter + 1 = sq.endIdx then
      let w1 := transitionToNotInSeq w
      { w1 with state := RState.NotInSeq }
    else w

/-- Outlining.moveOutlinedFunctions: copy the last outlinedCount functions
into a temp vector, insert them at the beginning of the function list, and
resize back to the original count (dropping the moved-from tail slots). -/
def moveOutlinedFunctions {A : Type} (funcs : List A) (outlinedCount : Nat) :
    List A :=
  let count := funcs.length
  let temp := funcs.drop (count - outlinedCount)
  ((temp ++ funcs).take count)

/-- Observation on the worklist loop: the pairs the loop pops and continues
past (as opposed to terminating on) during a run with the given fuel, queue
and state.  here is the pair popped in the first iteration; there are pairs
popped in later iterations, after the first pair was processed without
terminating. -/
inductive LoopProcessed (env : AEnv) (allocation : ExprId) :
    Nat → FlowQueue → AnalyzerState → (ExprId × Option ExprId) → Prop where
  | here {fuel : Nat} {q : FlowQueue} {st : AnalyzerState}
      {pr : ExprId × Option ExprId} {q' : FlowQueue} :
      popQ q = Option.some (pr, q') →
      LoopProcessed env allocation (fuel + 1) q st pr
  | there {fuel : Nat} {q q' q1 : FlowQueue} {st st1 : AnalyzerState}
      {pr pr' : ExprId × Option ExprId} :
      popQ q = Option.some (pr', q') →
      escapesStep env allocation pr' q' st = Sum.inr (q1, st1) →
      LoopProcessed env allocation fuel q1 st1 pr →
      LoopProcessed env allocation (fuel + 1) q st pr

/-- The values the reached map may hold on a successful analysis. -/
def goodR (r : List (ExprId × PCI)) : Prop :=
  ∀ e i, lookupR r e = Option.some i → i = PCI.Flows ∨ i = PCI.FullyConsumes

/-- A tiny concrete function body for evaluating the analyzer: expression 0
is the allocation, its parent (expression 1) is a drop consuming it; there
are no locals and no branches. -/
def envDropC : AEnv where
  kind := fun i => if i = 1 then NodeKind.drop else NodeKind.other
  typeOf := fun i => if i = 0 then WTy.ref 0 false else WTy.noneT
  parent := fun i => if i = 0 then Option.some 1 else Option.none
  setInfluences := fun _ => []
  getSets := fun _ => []
  subTypeB := fun _ _ => true
  fallthrough := fun _ => Option.none
  definedName := fun _ => Option.none
  branchesTo := fun _ => []
  sentValueOf := fun _ => Option.none
  blockBackType := fun _ => Option.none
  branchTarget := fun _ => 0
  scopeSends := fun _ => []

/-- A concrete arena in which expression 1 is an if of reference type and
expression 0 is its child: the configuration in which the spec predicts the
Mixes classification. -/
def envIfC : AEnv where
  kind := fun i => if i = 1 then NodeKind.iff else NodeKind.other
  typeOf := fun _ => WTy.ref 0 false
  parent := fun _ => Option.none
  setInfluences := fun _ => []
  getSets := fun _ => []
  subTypeB := fun _ _ => true
  fallthrough := fun _ => Option.none
  definedName := fun _ => Option.none
  branchesTo := fun _ => []
  sentValueOf := fun _ => Option.none
  blockBackType := fun _ => Option.none
  branchTarget := fun _ => 0
  scopeSends := fun _ => []

/-!
Theorems.  Helper lemmas about the association list, the step function and
the worklist loop come first; the claim theorems follow.
-/

theorem lookupR_insertR_self (l : List (ExprId × PCI)) (e : ExprId) (i : PCI) :
    lookupR (insertR l e i) e = Option.some i := by
  simp [insertR, lookupR]

theorem lookupR_insertR_preserve (l : List (ExprId × PCI)) (e : ExprId)
    (i : PCI) (f : ExprId) (h : lookupR l f ≠ Option.none) :
    lookupR (insertR l e i) f ≠ Option.none := by
  by_cases hef : e = f <;> simp [insertR, lookupR, hef, h]

theorem lookupR_insertR_cases (l : List (ExprId × PCI)) (e : ExprId)
    (i : PCI) (f : ExprId) (j : PCI)
    (h : lookupR (insertR l e i) f = Option.some j) :
    (e = f ∧ j = i) ∨ lookupR l f = Option.some j := by
  by_cases hef : e = f
  · simp [insertR, lookupR, hef] at h
    exact Or.inl ⟨hef, h.symm⟩
  · simp [insertR, lookupR, hef] at h
    exact Or.inr h

theorem escapesStep_inl {env : AEnv} {allocation : ExprId}
    {pr : ExprId × Option ExprId} {q : FlowQueue} {st : AnalyzerState}
    {b : Bool} {st' : AnalyzerState}
    (h : escapesStep env allocation pr q st = Sum.inl (b, st')) :
    b = true ∧ st' = st := by
  simp only [escapesStep] at h
  split at h
  · cases h
    exact ⟨rfl, rfl⟩
  · split at h
    · cases h
      exact ⟨rfl, rfl⟩
    · cases h

theorem stepAfterChecks_snd_reached (env : AEnv) (c p : ExprId) (i : PCI)
    (q : FlowQueue) (st : AnalyzerState) :
    ((stepAfterChecks env c p i q st).2).reached =
      insertR (insertR st.reached c PCI.Flows) p i := by
  simp only [stepAfterChecks]
  split <;> rfl

theorem stepAfterChecks_snd_sets (env : AEnv) (c p : ExprId) (i : PCI)
    (q : FlowQueue) (st : AnalyzerState) :
    ((stepAfterChecks env c p i q st).2).sets =
      (if env.kind p = NodeKind.localSet then setsInsert st.sets p
       else st.sets) := by
  simp only [stepAfterChecks]
  split <;> rfl

theorem escapesStep_inr {env : AEnv} {allocation : ExprId} {c : ExprId}
    {p : Option ExprId} {q q1 : FlowQueue} {st st1 : AnalyzerState}
    (h : escapesStep env allocation (c, p) q st = Sum.inr (q1, st1)) :
    ∃ pe, p = Option.some pe ∧
      ¬(getParentChildInteraction env allocation p c = PCI.Escapes ∨
        getParentChildInteraction env allocation p c = PCI.Mixes) ∧
      st1.reached = insertR (insertR st.reached c PCI.Flows) pe
        (getParentChildInteraction env allocation p c) := by
  simp only [escapesStep] at h
  split at h
  · cases h
  next hcond =>
    match hp : p with
    | Option.none => simp at h
    | Option.some pe =>
      simp only [Sum.inr.injEq] at h
      refine ⟨pe, rfl, hcond, ?_⟩
      rw [← stepAfterChecks_snd_reached env c pe
        (getParentChildInteraction env allocation (Option.some pe) c) q st, h]

theorem interaction_ne_NoneI (env : AEnv) (allocation : ExprId)
    (p : Option ExprId) (c : ExprId) :
    getParentChildInteraction env allocation p c ≠ PCI.NoneI := by
  unfold getParentChildInteraction
  cases p with
  | none => simp
  | some parent =>
    dsimp only
    split
    · simp
    · split
      · simp
      · split
        · simp
        · split
          · split <;> simp
          · simp

theorem escapesLoop_false_exclusive (env : AEnv) (allocation : ExprId) :
    ∀ fuel q st stF,
      escapesLoop env allocation fuel q st = Option.some (false, stF) →
      getsAreExclusiveToSets env stF.sets = true := by
  intro fuel
  induction fuel with
  | zero =>
    intro q st stF h
    simp [escapesLoop] at h
  | succ n ih =>
    intro q st stF h
    rw [escapesLoop] at h
    split at h
    · have h2 := Option.some.inj h
      have h3 : (!getsAreExclusiveToSets env st.sets) = false := congrArg Prod.fst h2
      have h4 : st = stF := congrArg Prod.snd h2
      rw [← h4]
      simpa using h3
    · split at h
      next r hstep =>
        obtain ⟨b, st2⟩ := r
        simp only [Option.some.injEq, Prod.mk.injEq] at h
        have hb := (escapesStep_inl hstep).1
        rw [hb] at h
        simp at h
      next q1 st1 hstep =>
        exact ih q1 st1 stF h

theorem getsAreExclusiveToSets_spec (env : AEnv) (sets : List ExprId)
    (h : getsAreExclusiveToSets env sets = true) :
    ∀ s ∈ sets, ∀ g ∈ env.setInfluences s, ∀ s2 ∈ env.getSets g, s2 ∈ sets := by
  intro s hs g hg s2 hs2
  simp only [getsAreExclusiveToSets, List.all_eq_true, decide_eq_true_eq] at h
  exact h g (List.mem_flatten.mpr ⟨env.setInfluences s,
    List.mem_map_of_mem _ hs, hg⟩) s2 hs2

/-- C1. When EscapeAnalyzer.escapes returns false, the final
get-exclusivity check has succeeded: every local.get influenced by one of
the recorded local.sets reads only from recorded sets (so an allocation
with a get that may read from a set outside the recorded ones is reported
as escaping and left unchanged). -/
theorem escapes_false_gets_exclusive (env : AEnv) (allocation : ExprId)
    (fuel : Nat) (st : AnalyzerState)
    (h : escapesA env allocation fuel = Option.some (false, st)) :
    getsAreExclusiveToSets env st.sets = true ∧
    ∀ s ∈ st.sets, ∀ g ∈ env.setInfluences s, ∀ s2 ∈ env.getSets g,
      s2 ∈ st.sets := by
  have hb := escapesLoop_false_exclusive env allocation fuel _ _ _ h
  exact ⟨hb, getsAreExclusiveToSets_spec env st.sets hb⟩

/-- Witness for C1: running the analyzer on the concrete drop arena returns
false, and the exclusivity property holds of the resulting (empty) set
list. -/
theorem escapes_false_gets_exclusive_witness :
    getsAreExclusiveToSets envDropC
      (AnalyzerState.mk [] [(1, PCI.FullyConsumes), (0, PCI.Flows)]).sets
      = true ∧
    ∀ s ∈ (AnalyzerState.mk []
        [(1, PCI.FullyConsumes), (0, PCI.Flows)]).sets,
      ∀ g ∈ envDropC.setInfluences s, ∀ s2 ∈ envDropC.getSets g,
        s2 ∈ (AnalyzerState.mk []
          [(1, PCI.FullyConsumes), (0, PCI.Flows)]).sets :=
  escapes_false_gets_exclusive envDropC 0 2
    (AnalyzerState.mk [] [(1, PCI.FullyConsumes), (0, PCI.Flows)])
    (by decide)

theorem escapesStep_inr_keys {env : AEnv} {allocation c : ExprId}
    {p : Option ExprId} {q q1 : FlowQueue} {st st1 : AnalyzerState}
    (h : escapesStep env allocation (c, p) q st = Sum.inr (q1, st1)) :
    (∀ e, lookupR st.reached e ≠ Option.none →
      lookupR st1.reached e ≠ Option.none) ∧
    lookupR st1.reached c ≠ Option.none ∧
    (∃ pe, p = Option.some pe ∧ lookupR st1.reached pe ≠ Option.none) := by
  obtain ⟨pe, hpe, _, hr⟩ := escapesStep_inr h
  refine ⟨?_, ?_, pe, hpe, ?_⟩
  · intro e he
    rw [hr]
    exact lookupR_insertR_preserve _ _ _ _ (lookupR_insertR_preserve _ _ _ _ he)
  · rw [hr]
    by_cases hc : pe = c
    · rw [hc, lookupR_insertR_self]
      simp
    · simp [insertR, lookupR, hc]
  · rw [hr, lookupR_insertR_self]
    simp

theorem escapesLoop_keys_mono (env : AEnv) (allocation : ExprId) :
    ∀ fuel q st b stF,
      escapesLoop env allocation fuel q st = Option.some (b, stF) →
      ∀ e, lookupR st.reached e ≠ Option.none →
        lookupR stF.reached e ≠ Option.none := by
  intro fuel
  induction fuel with
  | zero =>
    intro q st b stF h
    simp [escapesLoop] at h
  | succ n ih =>
    intro q st b stF h
    rw [escapesLoop] at h
    split at h
    · have h2 := Option.some.inj h
      have h4 : st = stF := congrArg Prod.snd h2
      rw [← h4]
      exact fun e he => he
    next pr q' hpop =>
      obtain ⟨c, p⟩ := pr
      split at h
      next r hstep =>
        obtain ⟨b2, st2⟩ := r
        have h2 := Option.some.inj h
        have h4 : st2 = stF := congrArg Prod.snd h2
        have h5 := (escapesStep_inl hstep).2
        rw [← h4, h5]
        exact fun e he => he
      next q1 st1 hstep =>
        intro e he
        have hk := escapesStep_inr_keys hstep
        exact ih q1 st1 b stF h e (hk.1 e he)

theorem goodR_insertR {r : List (ExprId × PCI)} {e : ExprId} {i : PCI}
    (hr : goodR r) (hi : i = PCI.Flows ∨ i = PCI.FullyConsumes) :
    goodR (insertR r e i) := by
  intro f j hj
  rcases lookupR_insertR_cases r e i f j hj with ⟨_, hji⟩ | hlk
  · rw [hji]
    exact hi
  · exact hr f j hlk

theorem escapesLoop_goodR (env : AEnv) (allocation : ExprId) :
    ∀ fuel q st b stF, goodR st.reached →
      escapesLoop env allocation fuel q st = Option.some (b, stF) →
      goodR stF.reached := by
  intro fuel
  induction fuel with
  | zero =>
    intro q st b stF hg h
    simp [escapesLoop] at h
  | succ n ih =>
    intro q st b stF hg h
    rw [escapesLoop] at h
    split at h
    · have h2 := Option.some.inj h
      have h4 : st = stF := congrArg Prod.snd h2
      rw [← h4]
      exact hg
    next pr q' hpop =>
      obtain ⟨c, p⟩ := pr
      split at h
      next r hstep =>
        obtain ⟨b2, st2⟩ := r
        have h2 := Option.some.inj h
        have h4 : st2 = stF := congrArg Prod.snd h2
        have h5 := (escapesStep_inl hstep).2
        rw [← h4, h5]
        exact hg
      next q1 st1 hstep =>
        obtain ⟨pe, hpe, hnem, hr⟩ := escapesStep_inr hstep
        have hgood1 : goodR st1.reached := by
          rw [hr]
          refine goodR_insertR (goodR_insertR hg (Or.inl rfl)) ?_
          rcases hI : getParentChildInteraction env allocation p c with
            hE | hFC | hF | hM | hN
          · exact absurd (Or.inl hI) hnem
          · exact Or.inr rfl
          · exact Or.inl rfl
          · exact absurd (Or.inr hI) hnem
          · exact absurd hI (interaction_ne_NoneI env allocation p c)
        exact ih q1 st1 b stF hgood1 h

theorem escapesLoop_succ_none {env : AEnv} {allocation : ExprId} {n : Nat}
    {q : FlowQueue} {st : AnalyzerState} (hpop : popQ q = Option.none) :
    escapesLoop env allocation (n + 1) q st =
      Option.some (!(getsAreExclusiveToSets env st.sets), st) := by
  rw [escapesLoop, hpop]

theorem escapesLoop_succ_inl {env : AEnv} {allocation : ExprId} {n : Nat}
    {q q' : FlowQueue} {st : AnalyzerState} {pr : ExprId × Option ExprId}
    {r : Bool × AnalyzerState}
    (hpop : popQ q = Option.some (pr, q'))
    (hstep : escapesStep env allocation pr q' st = Sum.inl r) :
    escapesLoop env allocation (n + 1) q st = Option.some r := by
  rw [escapesLoop, hpop]
  dsimp only
  rw [hstep]

theorem escapesLoop_succ_inr {env : AEnv} {allocation : ExprId} {n : Nat}
    {q q' q1 : FlowQueue} {st st1 : AnalyzerState}
    {pr : ExprId × Option ExprId}
    (hpop : popQ q = Option.some (pr, q'))
    (hstep : escapesStep env allocation pr q' st = Sum.inr (q1, st1)) :
    escapesLoop env allocation (n + 1) q st =
      escapesLoop env allocation n q1 st1 := by
  rw [escapesLoop, hpop]
  dsimp only
  rw [hstep]

theorem escapesLoop_processed_present (env : AEnv) (allocation : ExprId) :
    ∀ fuel q st pr, LoopProcessed env allocation fuel q st pr →
      ∀ stF, escapesLoop env allocation fuel q st = Option.some (false, stF) →
        lookupR stF.reached pr.1 ≠ Option.none ∧
        ∀ pe, pr.2 = Option.some pe → lookupR stF.reached pe ≠ Option.none := by
  intro fuel q st pr hproc
  induction hproc with
  | here hpop =>
    intro stF hloop
    rename_i m q2 st2 pr2 q2'
    obtain ⟨c, p⟩ := pr2
    cases hstep : escapesStep env allocation (c, p) q2' st2 with
    | inl r =>
      rw [escapesLoop_succ_inl hpop hstep] at hloop
      obtain ⟨b2, st3⟩ := r
      have hb := (escapesStep_inl hstep).1
      rw [hb] at hloop
      simp at hloop
    | inr z =>
      obtain ⟨q1, st1⟩ := z
      rw [escapesLoop_succ_inr hpop hstep] at hloop
      have hk := escapesStep_inr_keys hstep
      have hmono := escapesLoop_keys_mono env allocation m q1 st1 false stF hloop
      refine ⟨hmono c (hk.2.1), ?_⟩
      intro pe hpe
      obtain ⟨pe2, hpe2, hpres⟩ := hk.2.2
      rw [hpe2] at hpe
      cases hpe
      exact hmono pe hpres
  | there hpop hstep hsub ih =>
    intro stF hloop
    rename_i m q2 q2' q1 st2 st1 pr2 pr2'
    rw [escapesLoop_succ_inr hpop hstep] at hloop
    exact ih stF hloop

/-- C2. When EscapeAnalyzer.escapes returns false, every entry of the
reachedInteractions map is Flows or FullyConsumes (never Escapes, Mixes, or
NoneI), and every pair the worklist walk processed has both its child and
its parent expression present in the map. -/
theorem escapes_false_reached_invariant (env : AEnv) (allocation : ExprId)
    (fuel : Nat) (st : AnalyzerState)
    (h : escapesA env allocation fuel = Option.some (false, st)) :
    (∀ e i, lookupR st.reached e = Option.some i →
      i = PCI.Flows ∨ i = PCI.FullyConsumes) ∧
    (∀ c p, LoopProcessed env allocation fuel
        (pushQ ⟨[], []⟩ (allocation, env.parent allocation)) ⟨[], []⟩ (c, p) →
      lookupR st.reached c ≠ Option.none ∧
      ∀ pe, p = Option.some pe → lookupR st.reached pe ≠ Option.none) := by
  constructor
  · refine escapesLoop_goodR env allocation fuel _ _ false st ?_ h
    intro e i hi
    simp [lookupR] at hi
  · intro c p hproc
    exact escapesLoop_processed_present env allocation fuel _ _ (c, p) hproc st h

/-- Witness for C2: the concrete drop arena, where analysis succeeds and
the final map holds Flows for the allocation and FullyConsumes for the
drop. -/
theorem escapes_false_reached_invariant_witness :
    (∀ e i, lookupR (AnalyzerState.mk []
        [(1, PCI.FullyConsumes), (0, PCI.Flows)]).reached e = Option.some i →
      i = PCI.Flows ∨ i = PCI.FullyConsumes) ∧
    (∀ c p, LoopProcessed envDropC 0 2
        (pushQ ⟨[], []⟩ (0, envDropC.parent 0)) ⟨[], []⟩ (c, p) →
      lookupR (AnalyzerState.mk []
        [(1, PCI.FullyConsumes), (0, PCI.Flows)]).reached c ≠ Option.none ∧
      ∀ pe, p = Option.some pe →
        lookupR (AnalyzerState.mk []
          [(1, PCI.FullyConsumes), (0, PCI.Flows)]).reached pe ≠
          Option.none) :=
  escapes_false_reached_invariant envDropC 0 2
    (AnalyzerState.mk [] [(1, PCI.FullyConsumes), (0, PCI.Flows)])
    (by decide)

/-- C3 (amended). For a parent that is an if expression, the classification
is never Flows, and in fact never Mixes either: the Checker visitor has no
case for if, so the conservative default applies and the interaction is
always Escapes. -/
theorem if_parent_always_escapes (env : AEnv) (allocation parent child : ExprId)
    (hk : env.kind parent = NodeKind.iff) :
    getParentChildInteraction env allocation (Option.some parent) child =
      PCI.Escapes := by
  unfold getParentChildInteraction checkerFlags
  dsimp only
  rw [hk]
  simp

/-- Witness for the amended C3, at the concrete if arena. -/
theorem if_parent_always_escapes_witness :
    envIfC.kind 1 = NodeKind.iff ∧
    getParentChildInteraction envIfC 0 (Option.some 1) 0 = PCI.Escapes :=
  ⟨by decide, if_parent_always_escapes envIfC 0 1 0 (by decide)⟩

/-- Counterexample to C3 as stated: in the concrete arena the parent is an
if whose type is a reference (so the type does not prove the value stops),
yet the classification is Escapes, not the Mixes the claim requires. -/
theorem if_parent_not_mixes_cex :
    envIfC.kind 1 = NodeKind.iff ∧
    (envIfC.typeOf 1).isRef = true ∧
    getParentChildInteraction envIfC 0 (Option.some 1) 0 ≠ PCI.Mixes := by
  refine ⟨by decide, by decide, ?_⟩
  intro hmix
  rw [if_parent_always_escapes envIfC 0 1 0 (by decide)] at hmix
  cases hmix

/-- C4. When the rewritten struct allocation carries a descriptor operand,
the replacement block stores the descriptor into an additional temp local
(an index past every field local), wrapping it in ref.as_non_null exactly
when the descriptor type is nullable, and the block ends with a ref.null of
the allocation heap type. -/
theorem structNew_descriptor_rewrite (curr : StructNewData) (li : List Nat)
    (t : Nat) (d : OExpr) (ty : WTy)
    (hd : curr.desc = Option.some (d, ty))
    (hfresh : ∀ i ∈ li, i < t) :
    ∃ L dt,
      visitStructNewS2L curr li t = OExpr.blockE L ∧
      dt = t + (if curr.isWithDefault then 0 else curr.fieldsT.length) ∧
      OExpr.localSet dt
        (if ty.isNullable then OExpr.refAsNonNull d else d) ∈ L ∧
      dt ∉ li ∧
      L.getLast? = Option.some (OExpr.refNull curr.heapT) := by
  refine ⟨structNewContents curr li t,
    t + (if curr.isWithDefault then 0 else curr.fieldsT.length),
    rfl, rfl, ?_, ?_, ?_⟩
  · simp [structNewContents, hd, List.mem_append]
  · intro hmem
    have := hfresh _ hmem
    omega
  · simp [structNewContents, List.getLast?_concat]

/-- Witness for C4, at a one-field allocation with a nullable descriptor:
the descriptor lands in temp local 6 behind a ref.as_non_null and the block
ends in ref.null. -/
theorem structNew_descriptor_rewrite_witness :
    ∃ L dt,
      visitStructNewS2L
        (StructNewData.mk [WTy.i32] false [OExpr.atomE 7]
          (Option.some (OExpr.atomE 8, WTy.ref 0 true)) 3) [0, 1] 5 =
        OExpr.blockE L ∧
      dt = 5 + (if false then 0 else [WTy.i32].length) ∧
      OExpr.localSet dt
        (if (WTy.ref 0 true).isNullable then OExpr.refAsNonNull (OExpr.atomE 8)
         else OExpr.atomE 8) ∈ L ∧
      dt ∉ [0, 1] ∧
      L.getLast? = Option.some (OExpr.refNull 3) :=
  structNew_descriptor_rewrite
    (StructNewData.mk [WTy.i32] false [OExpr.atomE 7]
      (Option.some (OExpr.atomE 8, WTy.ref 0 true)) 3) [0, 1] 5
    (OExpr.atomE 8) (WTy.ref 0 true) rfl (by decide)

/-- C5. A reached array.get or array.set whose constant index is at least
the slot count of the rewritten array is replaced by drops of its evaluated
operands followed by unreachable, with the refinalize flag set. -/
theorem array_oob_access_rewrite (nf : Nat) (inter : PCI)
    (g : ArrayGetData) (s : ArraySetData) (ig is2 : Nat)
    (hg : getIndexO g.index = Option.some ig)
    (hs : getIndexO s.index = Option.some is2)
    (hig : nf ≤ ig) (his : nf ≤ is2) (hi : inter ≠ PCI.NoneI) :
    visitArrayGetA2S nf inter g = Option.some (Option.some
      (OExpr.seqE (OExpr.dropE g.ref) OExpr.unreachableE), true) ∧
    visitArraySetA2S nf inter s = Option.some (Option.some
      (OExpr.blockE [OExpr.dropE s.ref, OExpr.dropE s.value,
        OExpr.unreachableE]), true) := by
  unfold visitArrayGetA2S visitArraySetA2S
  rw [hg, hs]
  simp [hi, hig, his]

/-- Witness for C5, at a 2-slot array accessed at constant index 5. -/
theorem array_oob_access_rewrite_witness :
    visitArrayGetA2S 2 PCI.FullyConsumes
      (ArrayGetData.mk (OExpr.atomE 1) (OExpr.consti32 5) WTy.i32 false) =
      Option.some (Option.some
        (OExpr.seqE (OExpr.dropE (OExpr.atomE 1)) OExpr.unreachableE),
        true) ∧
    visitArraySetA2S 2 PCI.FullyConsumes
      (ArraySetData.mk (OExpr.atomE 1) (OExpr.consti32 5) (OExpr.atomE 2)) =
      Option.some (Option.some
        (OExpr.blockE [OExpr.dropE (OExpr.atomE 1),
          OExpr.dropE (OExpr.atomE 2), OExpr.unreachableE]), true) :=
  array_oob_access_rewrite 2 PCI.FullyConsumes
    (ArrayGetData.mk (OExpr.atomE 1) (OExpr.consti32 5) WTy.i32 false)
    (ArraySetData.mk (OExpr.atomE 1) (OExpr.consti32 5) (OExpr.atomE 2))
    5 5 rfl rfl (by decide) (by decide) (by decide)

/-- C6 (amended). A ref.eq the analysis reached is replaced by a block that
drops both operands and yields 1 exactly when both operands have the Flows
interaction and 0 otherwise, unless the type of the ref.eq is unreachable,
in which case it is left unchanged for dead-code elimination. -/
theorem refEq_rewrite (ic il ir : PCI) (d : RefEqData)
    (h1 : ic ≠ PCI.NoneI) (h2 : d.ty ≠ WTy.unreachable) :
    visitRefEqS2L ic il ir d = Option.some (OExpr.blockE
      [OExpr.dropE d.left, OExpr.dropE d.right,
       OExpr.consti32 (if il = PCI.Flows ∧ ir = PCI.Flows then 1 else 0)]) := by
  unfold visitRefEqS2L
  simp [h1, h2]

/-- Witness for the amended C6, at a reached ref.eq of non-unreachable
type whose left operand flows and whose right operand does not. -/
theorem refEq_rewrite_witness :
    visitRefEqS2L PCI.FullyConsumes PCI.Flows PCI.NoneI
      (RefEqData.mk (OExpr.atomE 1) (OExpr.atomE 2) WTy.i32) =
      Option.some (OExpr.blockE
        [OExpr.dropE (OExpr.atomE 1), OExpr.dropE (OExpr.atomE 2),
         OExpr.consti32 (if PCI.Flows = PCI.Flows ∧ PCI.NoneI = PCI.Flows
           then 1 else 0)]) :=
  refEq_rewrite PCI.FullyConsumes PCI.Flows PCI.NoneI
    (RefEqData.mk (OExpr.atomE 1) (OExpr.atomE 2) WTy.i32)
    (by decide) (by decide)

/-- Counterexample to C6 as stated: a ref.eq reached by the analysis (its
recorded interaction is FullyConsumes, not NoneI) whose type is unreachable
is left unchanged instead of being replaced by a drop-drop-constant
block. -/
theorem refEq_unreachable_unchanged_cex :
    visitRefEqS2L PCI.FullyConsumes PCI.Flows PCI.Flows
      (RefEqData.mk (OExpr.atomE 1) (OExpr.atomE 2) WTy.unreachable) =
      Option.none ∧
    PCI.FullyConsumes ≠ PCI.NoneI :=
  ⟨rfl, by decide⟩

/-- C7. An array.new is a Heap2Local allocation candidate only if its type
is not unreachable and its size operand is a constant whose unsigned value
is strictly below 20; a non-constant size or a constant of 20 or more is
never accepted.  An array.new_fixed is accepted only if its type is not
unreachable and its operand count is below 20. -/
theorem array_allocation_candidate_size (an : ArrayNewData)
    (anf : ArrayNewFixedData) :
    (finderAcceptsArrayNew an = true →
      an.ty ≠ WTy.unreachable ∧
      ∃ n : Int, an.size = OExpr.consti32 n ∧ i32Unsigned n < 20) ∧
    ((∀ n : Int, an.size ≠ OExpr.consti32 n) →
      finderAcceptsArrayNew an = false) ∧
    (∀ n : Int, an.size = OExpr.consti32 n → 20 ≤ i32Unsigned n →
      finderAcceptsArrayNew an = false) ∧
    (finderAcceptsArrayNewFixed anf = true →
      anf.ty ≠ WTy.unreachable ∧ anf.numValues < 20) := by
  refine ⟨?_, ?_, ?_, ?_⟩
  · intro h
    unfold finderAcceptsArrayNew at h
    split at h
    · cases h
    next hty =>
      refine ⟨hty, ?_⟩
      cases hsz : an.size <;> rw [hsz] at h <;>
        simp [isValidSizeE, isValidSizeN] at h
      next n => exact ⟨n, rfl, h⟩
  · intro hnc
    unfold finderAcceptsArrayNew
    split
    · rfl
    · cases hsz : an.size <;> simp [isValidSizeE]
      next n => exact absurd hsz (hnc n)
  · intro n hsz hge
    unfold finderAcceptsArrayNew
    split
    · rfl
    · rw [hsz]
      simp [isValidSizeE, isValidSizeN]
      omega
  · intro h
    unfold finderAcceptsArrayNewFixed at h
    split at h
    · cases h
    next hty =>
      simp [isValidSizeN] at h
      exact ⟨hty, h⟩

/-- Witness for C7: a constant-size-30 array.new is rejected, and an
accepted array.new of constant size 4 satisfies the bound. -/
theorem array_allocation_candidate_size_witness :
    (finderAcceptsArrayNew
        (ArrayNewData.mk (WTy.ref 0 false) (OExpr.consti32 30)) = false) ∧
    ((WTy.ref 0 false : WTy) ≠ WTy.unreachable ∧
      ∃ n : Int, (OExpr.consti32 4 : OExpr) = OExpr.consti32 n ∧
        i32Unsigned n < 20) :=
  ⟨(array_allocation_candidate_size
      (ArrayNewData.mk (WTy.ref 0 false) (OExpr.consti32 30))
      (ArrayNewFixedData.mk WTy.i32 0)).2.2.1 30 rfl (by decide),
   (array_allocation_candidate_size
      (ArrayNewData.mk (WTy.ref 0 false) (OExpr.consti32 4))
      (ArrayNewFixedData.mk WTy.i32 0)).1 (by decide)⟩

/-- C8. Outlining.run applies the candidate pipeline in exactly the order
mine, dedupe, filterOverlaps, filterBranches, filterLocalSets,
filterLocalGets; consequently no surviving candidate contains a
branch/return/try_table, a local.set, or a local.get. -/
theorem outlining_filter_order (hs : List Nat) (exprs : List StrSym) :
    outliningCandidates hs exprs =
      filterLocalGets (filterLocalSets (filterBranches
        (filterOverlaps (dedupe (repeatSubstrings hs))) exprs) exprs) exprs ∧
    ∀ s ∈ outliningCandidates hs exprs,
      subContains exprs s isBranchSym = false ∧
      subContains exprs s isLocalSetSym = false ∧
      subContains exprs s isLocalGetSym = false := by
  refine ⟨rfl, ?_⟩
  intro s hmem
  simp only [outliningCandidates, filterLocalGets, filterLocalSets,
    filterBranches, List.mem_filter, Bool.not_eq_true'] at hmem
  exact ⟨hmem.1.1.2, hmem.1.2, hmem.2⟩

/-- Witness for C8: on the hash string 5 6 5 6 with plain expressions, the
substring of length 2 at starts 0 and 2 survives the pipeline and contains
no branch, local.set or local.get. -/
theorem outlining_filter_order_witness :
    subContains [StrSym.otherS, StrSym.otherS, StrSym.otherS, StrSym.otherS]
      (RepSub.mk 2 [0, 2]) isBranchSym = false ∧
    subContains [StrSym.otherS, StrSym.otherS, StrSym.otherS, StrSym.otherS]
      (RepSub.mk 2 [0, 2]) isLocalSetSym = false ∧
    subContains [StrSym.otherS, StrSym.otherS, StrSym.otherS, StrSym.otherS]
      (RepSub.mk 2 [0, 2]) isLocalGetSym = false :=
  (outlining_filter_order [5, 6, 5, 6]
      [StrSym.otherS, StrSym.otherS, StrSym.otherS, StrSym.otherS]).2
    (RepSub.mk 2 [0, 2]) (by decide)

/-- C9. When the instruction counter reaches one before the end index of
the active sequence, maybeEndSeq returns to NotInSeq and increments the
sequence counter from both InSeq and InSkipSeq, finalizing the callee body
(one more end on the outlined builder) exactly when the state was InSeq. -/
theorem maybeEndSeq_transition (seqs : List OutSeq) (w : RecWalk)
    (sq : OutSeq) (hsq : seqs.get? w.seqCounter = Option.some sq)
    (hst : w.state = RState.InSeq ∨ w.state = RState.InSkipSeq)
    (hend : w.instrCounter + 1 = sq.endIdx) :
    (maybeEndSeq seqs w).state = RState.NotInSeq ∧
    (maybeEndSeq seqs w).seqCounter = w.seqCounter + 1 ∧
    (maybeEndSeq seqs w).instrCounter = w.instrCounter ∧
    (maybeEndSeq seqs w).outlinedEnds = w.outlinedEnds +
      (if w.state = RState.InSeq then 1 else 0) := by
  unfold maybeEndSeq
  rw [hsq]
  simp only [hend, if_pos rfl]
  unfold transitionToNotInSeq
  by_cases hin : w.state = RState.InSeq <;> simp [hin]

/-- Witness for C9, at a concrete InSkipSeq walker one instruction before
the sequence end: no callee finalization happens, but the counter advances
and the state resets. -/
theorem maybeEndSeq_transition_witness :
    (maybeEndSeq [OutSeq.mk 2 7 0 false]
      (RecWalk.mk RState.InSkipSeq 0 6 3)).state = RState.NotInSeq ∧
    (maybeEndSeq [OutSeq.mk 2 7 0 false]
      (RecWalk.mk RState.InSkipSeq 0 6 3)).seqCounter = 0 + 1 ∧
    (maybeEndSeq [OutSeq.mk 2 7 0 false]
      (RecWalk.mk RState.InSkipSeq 0 6 3)).instrCounter = 6 ∧
    (maybeEndSeq [OutSeq.mk 2 7 0 false]
      (RecWalk.mk RState.InSkipSeq 0 6 3)).outlinedEnds = 3 +
      (if (RecWalk.mk RState.InSkipSeq 0 6 3).state = RState.InSeq
       then 1 else 0) :=
  maybeEndSeq_transition [OutSeq.mk 2 7 0 false]
    (RecWalk.mk RState.InSkipSeq 0 6 3) (OutSeq.mk 2 7 0 false)
    (by decide) (Or.inr rfl) (by decide)

/-- C10. For outlinedCount at most the function count,
moveOutlinedFunctions moves exactly the last outlinedCount functions to the
front, preserving the relative order of the moved group and of the rest,
and leaves the total count unchanged. -/
theorem moveOutlinedFunctions_moves_last_to_front {A : Type}
    (funcs : List A) (k : Nat) (hk : k ≤ funcs.length) :
    moveOutlinedFunctions funcs k =
      funcs.drop (funcs.length - k) ++ funcs.take (funcs.length - k) ∧
    (moveOutlinedFunctions funcs k).length = funcs.length := by
  have hlen : (funcs.drop (funcs.length - k)).length = k := by
    simp only [List.length_drop]
    omega
  constructor
  · unfold moveOutlinedFunctions
    rw [List.take_append_eq_append_take, hlen]
    rw [List.take_of_length_le (by omega : (funcs.drop (funcs.length - k)).length ≤ funcs.length)]
  · unfold moveOutlinedFunctions
    simp only [List.length_take, List.length_append]
    omega

/-- Witness for C10: moving the last 2 of 4 functions yields 3 4 1 2. -/
theorem moveOutlinedFunctions_moves_last_to_front_witness :
    moveOutlinedFunctions [1, 2, 3, 4] 2 =
      [1, 2, 3, 4].drop ([1, 2, 3, 4].length - 2) ++
        [1, 2, 3, 4].take ([1, 2, 3, 4].length - 2) ∧
    (moveOutlinedFunctions [1, 2, 3, 4] 2).length = [1, 2, 3, 4].length :=
  moveOutlinedFunctions_moves_last_to_front [1, 2, 3, 4] 2 (by decide)
